import Mathlib

/-!
Verification of the crawl traversal engine of `pr0n_crawler`
(`src/crawlermixin.py`), shallowly embedded in Lean 4.

The source file defines `CrawlerMixin` with:
  * `crawl` — the pagination loop (reset the per-iteration accumulator,
    `_download`, notify each created video);
  * `_download` — fetch + process + pagination decision, wrapped by
    `tenacity.retry(stop_after_attempt(20), wait_random(8, 512))`;
  * `_download_videos_page` — HTTP GET; `exit(1)` on status 404,
    otherwise the body is parsed with `lxml.html.fromstring`;
  * `_fetch_videos_page_and_find_metadata` — extracts parallel lists of
    titles, urls, thumbnail urls and durations (each raw duration mapped
    through `crawl_convert_video_duration_to_seconds`) and zips them;
  * `_get_or_create_videos_from_metadata` — `Video.get_or_create` on every
    tuple, appending to `created_videos_on_crawl` when a record was created;
  * `_find_more_videos_metadata` / `_fetch_video_page_and_find_metadata` —
    detail-page enrichment of a batch (`asyncio.gather`; a 404 detail page
    returns early, otherwise `save_video_details` is called);
  * `save_video_details` — tag slugging (`inflection.parameterize` /
    `inflection.humanize`), `Tag.get_or_create`, `VideoTag.get_or_create`.

Each Python construct is embedded as an executable Lean definition;
stateful code is embedded by explicit state passing over list-backed
stores whose `get_or_create` matches on exactly the fields the Python
call passes as lookup keys.
-/

namespace Crawler

/-- One extracted metadata tuple `(title, url, thumbnail_url, duration)` as
produced by `_fetch_videos_page_and_find_metadata` (duration already an
integer number of seconds). -/
structure VideoMeta where
  title : String
  url : String
  thumbnailUrl : String
  duration : Int
deriving DecidableEq, Repr

/-- A persisted `Video` row.  `Video.get_or_create` in
`_get_or_create_videos_from_metadata` passes `title`, `url`,
`thumbnail_url`, `duration` and `site` — all five fields form the lookup
key.  The site is represented by its id. -/
structure VideoRec where
  title : String
  url : String
  thumbnailUrl : String
  duration : Int
  site : Nat
deriving DecidableEq, Repr

/-- Python's `str.strip()`: drop leading and trailing whitespace. -/
def pyStrip (s : String) : String :=
  String.mk
    (((s.data.dropWhile Char.isWhitespace).reverse.dropWhile
      Char.isWhitespace).reverse)

/-- The record `Video.get_or_create` looks up / inserts for a metadata
tuple: string fields stripped (`m[0].strip()`, `m[1].strip()`,
`m[2].strip()`), duration `m[3]` as is, plus `site=self.site`. -/
def videoKey (siteId : Nat) (m : VideoMeta) : VideoRec :=
  { title := pyStrip m.title
    url := pyStrip m.url
    thumbnailUrl := pyStrip m.thumbnailUrl
    duration := m.duration
    site := siteId }

/-- The `Video` table. -/
structure VideoStore where
  recs : List VideoRec
deriving DecidableEq, Repr

/-- Embeds `Video.get_or_create(title=…, url=…, thumbnail_url=…, duration=…,
site=…)`: return the existing row matching every passed field, or insert a
new row; the boolean is peewee's `created` flag. -/
def VideoStore.getOrCreate (st : VideoStore) (r : VideoRec) :
    VideoStore × VideoRec × Bool :=
  match st.recs.find? (· == r) with
  | some v => (st, v, false)
  | none => (⟨st.recs ++ [r]⟩, r, true)

/-- The mutable state `_get_or_create_videos_from_metadata` touches: the
`Video` table and `self.created_videos_on_crawl`. -/
structure MixinState where
  store : VideoStore
  createdVideosOnCrawl : List VideoRec
deriving DecidableEq, Repr

/-- Embeds `_get_or_create_videos_from_metadata`: for each metadata tuple,
`Video.get_or_create`; always append the row to the returned `videos`
list, and append to `created_videos_on_crawl` exactly when `created`. -/
def getOrCreateVideosFromMetadata (siteId : Nat) :
    MixinState → List VideoMeta → MixinState × List VideoRec
  | st, [] => (st, [])
  | st, m :: ms =>
    let res := st.store.getOrCreate (videoKey siteId m)
    let st' : MixinState :=
      { store := res.1
        createdVideosOnCrawl :=
          if res.2.2 then st.createdVideosOnCrawl ++ [res.2.1]
          else st.createdVideosOnCrawl }
    let rest := getOrCreateVideosFromMetadata siteId st' ms
    (rest.1, res.2.1 :: rest.2)

/-! ### Basic lemmas about the listing processor -/

theorem VideoStore.getOrCreate_mem (st : VideoStore) (r : VideoRec) :
    r ∈ (st.getOrCreate r).1.recs := by
  unfold VideoStore.getOrCreate
  cases h : st.recs.find? (· == r) with
  | none => simp
  | some v =>
    have hv := List.find?_some h
    have hmem := List.mem_of_find?_eq_some h
    simp only [beq_iff_eq] at hv
    simpa [hv] using hmem

theorem VideoStore.getOrCreate_ret (st : VideoStore) (r : VideoRec) :
    (st.getOrCreate r).2.1 = r := by
  unfold VideoStore.getOrCreate
  cases h : st.recs.find? (· == r) with
  | none => simp
  | some v =>
    have hv := List.find?_some h
    simp only [beq_iff_eq] at hv
    simpa using hv

theorem VideoStore.getOrCreate_found (st : VideoStore) (r : VideoRec)
    (h : r ∈ st.recs) : st.getOrCreate r = (st, r, false) := by
  unfold VideoStore.getOrCreate
  cases hf : st.recs.find? (· == r) with
  | none =>
    exfalso
    have := List.find?_eq_none.mp hf r h
    simp at this
  | some v =>
    have hv := List.find?_some hf
    simp only [beq_iff_eq] at hv
    simp [hv]

theorem VideoStore.getOrCreate_not_found (st : VideoStore) (r : VideoRec)
    (h : r ∉ st.recs) : st.getOrCreate r = (⟨st.recs ++ [r]⟩, r, true) := by
  unfold VideoStore.getOrCreate
  cases hf : st.recs.find? (· == r) with
  | none => simp
  | some v =>
    exfalso
    have hv := List.find?_some hf
    simp only [beq_iff_eq] at hv
    exact h (hv ▸ List.mem_of_find?_eq_some hf)

/-- The `videos` list returned by `_get_or_create_videos_from_metadata` is
always the (stripped) key of each metadata tuple, in order. -/
theorem getOrCreateVideos_snd (siteId : Nat) (st : MixinState)
    (ms : List VideoMeta) :
    (getOrCreateVideosFromMetadata siteId st ms).2 =
      ms.map (videoKey siteId) := by
  induction ms generalizing st with
  | nil => rfl
  | cons m ms ih =>
    simp only [getOrCreateVideosFromMetadata, List.map_cons]
    rw [ih, VideoStore.getOrCreate_ret]

/-- Processing only adds rows: the store after processing contains every
row it contained before. -/
theorem getOrCreateVideos_store_mono (siteId : Nat) (st : MixinState)
    (ms : List VideoMeta) (r : VideoRec) (h : r ∈ st.store.recs) :
    r ∈ (getOrCreateVideosFromMetadata siteId st ms).1.store.recs := by
  induction ms generalizing st with
  | nil => exact h
  | cons m ms ih =>
    simp only [getOrCreateVideosFromMetadata]
    apply ih
    unfold VideoStore.getOrCreate
    cases hf : st.store.recs.find? (· == videoKey siteId m) with
    | some v => simpa using h
    | none => simp [List.mem_append, h]

/-- After processing, every metadata tuple's key row is in the store. -/
theorem getOrCreateVideos_key_mem (siteId : Nat) (st : MixinState)
    (ms : List VideoMeta) (m : VideoMeta) (hm : m ∈ ms) :
    videoKey siteId m ∈
      (getOrCreateVideosFromMetadata siteId st ms).1.store.recs := by
  induction ms generalizing st with
  | nil => cases hm
  | cons m0 ms ih =>
    simp only [getOrCreateVideosFromMetadata]
    rcases List.mem_cons.mp hm with h | h
    · subst h
      exact getOrCreateVideos_store_mono siteId _ ms _
        (VideoStore.getOrCreate_mem st.store (videoKey siteId m))
    · exact ih _ h

/-- If every metadata key is already in the store, processing is a no-op
on the state: nothing is created and nothing is appended to
`created_videos_on_crawl`. -/
theorem getOrCreateVideos_all_present (siteId : Nat) (st : MixinState)
    (ms : List VideoMeta)
    (h : ∀ m ∈ ms, videoKey siteId m ∈ st.store.recs) :
    (getOrCreateVideosFromMetadata siteId st ms).1 = st := by
  induction ms generalizing st with
  | nil => rfl
  | cons m ms ih =>
    simp only [getOrCreateVideosFromMetadata]
    rw [VideoStore.getOrCreate_found st.store _ (h m (List.mem_cons_self m ms))]
    exact ih st fun m' hm' => h m' (List.mem_cons_of_mem m hm')

/-- If the metadata keys are pairwise distinct and none is in the store,
processing appends exactly the key rows to the store and to
`created_videos_on_crawl`, in order. -/
theorem getOrCreateVideos_all_fresh (siteId : Nat) (st : MixinState)
    (ms : List VideoMeta)
    (hnd : (ms.map (videoKey siteId)).Nodup)
    (h : ∀ m ∈ ms, videoKey siteId m ∉ st.store.recs) :
    (getOrCreateVideosFromMetadata siteId st ms).1 =
      { store := ⟨st.store.recs ++ ms.map (videoKey siteId)⟩
        createdVideosOnCrawl :=
          st.createdVideosOnCrawl ++ ms.map (videoKey siteId) } := by
  induction ms generalizing st with
  | nil => simp [getOrCreateVideosFromMetadata]
  | cons m ms ih =>
    simp only [getOrCreateVideosFromMetadata]
    rw [VideoStore.getOrCreate_not_found st.store _ (h m (List.mem_cons_self m ms))]
    simp only [List.map_cons, List.nodup_cons] at hnd
    have hfresh : ∀ m' ∈ ms,
        videoKey siteId m' ∉ st.store.recs ++ [videoKey siteId m] := by
      intro m' hm'
      simp only [List.mem_append, List.mem_singleton]
      rintro (hc | hc)
      · exact h m' (List.mem_cons_of_mem m hm') hc
      · exact hnd.1 (hc ▸ List.mem_map_of_mem (videoKey siteId) hm')
    rw [ih _ hnd.2 hfresh]
    simp

/-- The operation `Video.get_or_create` never inserts a row equal to an existing one, so
a duplicate-free table stays duplicate-free. -/
theorem VideoStore.getOrCreate_nodup (st : VideoStore) (r : VideoRec)
    (h : st.recs.Nodup) : (st.getOrCreate r).1.recs.Nodup := by
  unfold VideoStore.getOrCreate
  cases hf : st.recs.find? (· == r) with
  | some v => simpa using h
  | none =>
    have hr : r ∉ st.recs := by
      intro hmem
      have := List.find?_eq_none.mp hf r hmem
      simp at this
    simp [List.nodup_append, h, hr]

/-- Processing a listing page keeps the `Video` table duplicate-free. -/
theorem getOrCreateVideos_nodup (siteId : Nat) (st : MixinState)
    (ms : List VideoMeta) (h : st.store.recs.Nodup) :
    (getOrCreateVideosFromMetadata siteId st ms).1.store.recs.Nodup := by
  induction ms generalizing st with
  | nil => exact h
  | cons m ms ih =>
    simp only [getOrCreateVideosFromMetadata]
    exact ih _ (VideoStore.getOrCreate_nodup st.store _ h)

/-! ### Claim C1 -/

/-- C1 fails as stated: `Video.get_or_create` is called with `title`,
`url`, `thumbnail_url`, `duration` and `site` all as lookup fields, so
re-encountering a URL already stored for the site with a different title,
thumbnail or duration does **not** resolve to the existing record.
Processing `("A","/a","ta",90)` and then `("B","/a","tb",45)` for the same
site leaves two records with the same `(site, url)` pair, and the second
run creates a record. -/
theorem c1_dedup_by_site_url_counterexample :
    ((getOrCreateVideosFromMetadata 0
        ⟨(getOrCreateVideosFromMetadata 0 ⟨⟨[]⟩, []⟩
            [⟨"A", "/a", "ta", 90⟩]).1.store, []⟩
        [⟨"B", "/a", "tb", 45⟩]).1.store.recs.filter
      (fun r => r.site == 0 && r.url == "/a")).length = 2 ∧
    (getOrCreateVideosFromMetadata 0
        ⟨(getOrCreateVideosFromMetadata 0 ⟨⟨[]⟩, []⟩
            [⟨"A", "/a", "ta", 90⟩]).1.store, []⟩
        [⟨"B", "/a", "tb", 45⟩]).1.createdVideosOnCrawl ≠ [] := by
  decide

/-- C1 (amended): an item record is created at most once per full stripped
field tuple (site, title, url, thumbnail, duration) — the table stays
duplicate-free — and processing the same listing page twice produces the
same item set: the second run changes nothing in the store, its
`created_videos_on_crawl` accumulator stays empty, and it returns the same
`videos` list as the first run. -/
theorem c1_full_tuple_idempotence (siteId : Nat) (st0 : MixinState)
    (ms : List VideoMeta) (hnd : st0.store.recs.Nodup) :
    (getOrCreateVideosFromMetadata siteId st0 ms).1.store.recs.Nodup ∧
    (getOrCreateVideosFromMetadata siteId
        ⟨(getOrCreateVideosFromMetadata siteId st0 ms).1.store, []⟩ ms).1.store =
      (getOrCreateVideosFromMetadata siteId st0 ms).1.store ∧
    (getOrCreateVideosFromMetadata siteId
        ⟨(getOrCreateVideosFromMetadata siteId st0 ms).1.store, []⟩
        ms).1.createdVideosOnCrawl = [] ∧
    (getOrCreateVideosFromMetadata siteId
        ⟨(getOrCreateVideosFromMetadata siteId st0 ms).1.store, []⟩ ms).2 =
      (getOrCreateVideosFromMetadata siteId st0 ms).2 := by
  have hall : ∀ m ∈ ms, videoKey siteId m ∈
      (getOrCreateVideosFromMetadata siteId st0 ms).1.store.recs :=
    fun m hm => getOrCreateVideos_key_mem siteId st0 ms m hm
  have hfix := getOrCreateVideos_all_present siteId
    ⟨(getOrCreateVideosFromMetadata siteId st0 ms).1.store, []⟩ ms hall
  refine ⟨getOrCreateVideos_nodup siteId st0 ms hnd, ?_, ?_, ?_⟩
  · rw [hfix]
  · rw [hfix]
  · rw [getOrCreateVideos_snd, getOrCreateVideos_snd]

/-- Witness for C1 (amended) at a concrete listing page. -/
theorem c1_full_tuple_idempotence_witness :
    (([] : List VideoRec).Nodup) ∧
    ((getOrCreateVideosFromMetadata 0
        ⟨(getOrCreateVideosFromMetadata 0 ⟨⟨[]⟩, []⟩
            [⟨"A", "/a", "ta", 90⟩, ⟨"B", "/b", "tb", 45⟩]).1.store, []⟩
        [⟨"A", "/a", "ta", 90⟩, ⟨"B", "/b", "tb", 45⟩]).1.createdVideosOnCrawl
      = []) :=
  ⟨by decide,
    (c1_full_tuple_idempotence 0 ⟨⟨[]⟩, []⟩
      [⟨"A", "/a", "ta", 90⟩, ⟨"B", "/b", "tb", 45⟩] (by decide)).2.2.1⟩

/-! ### Claim C4 -/

/-- Positional zip of the four extracted field lists, truncating to the
shortest, as `list(zip(titles, urls, thumbnail_urls, durations))` does. -/
def zip4 {α β γ δ : Type} :
    List α → List β → List γ → List δ → List (α × β × γ × δ)
  | a :: as, b :: bs, c :: cs, d :: ds => (a, b, c, d) :: zip4 as bs cs ds
  | _, _, _, _ => []

/-- Embeds `_fetch_videos_page_and_find_metadata`: the extracted title, url and
thumbnail lists are zipped with the raw duration list mapped through the
site's duration converter. -/
def fetchVideosPageAndFindMetadata
    (titles urls thumbnailUrls rawDurations : List String)
    (convert : String → Int) : List VideoMeta :=
  (zip4 titles urls thumbnailUrls (rawDurations.map convert)).map
    fun x => ⟨x.1, x.2.1, x.2.2.1, x.2.2.2⟩

/-- Split a character list on a separator character. -/
def splitCharsOn (sep : Char) : List Char → List (List Char)
  | [] => [[]]
  | c :: rest =>
    let r := splitCharsOn sep rest
    if c = sep then [] :: r
    else
      match r with
      | [] => [[c]]
      | g :: gs => (c :: g) :: gs

/-- Decimal digits to a natural number. -/
def digitsToNat (cs : List Char) : Nat :=
  cs.foldl (fun acc c => acc * 10 + (c.toNat - 48)) 0

/-- Modelled from the spec: `crawl_convert_video_duration_to_seconds`
raises `NotImplementedError` in the mixin and the site-specific override
is not under `src/`; the spec requires a site-supplied pure
`convert(rawDurationString) -> integer seconds` and its example converter
reads `mm:ss`. -/
def convertMMSSToSeconds (s : String) : Int :=
  match splitCharsOn ':' s.data with
  | [m, sec] => (digitsToNat m : Int) * 60 + (digitsToNat sec : Int)
  | _ => 0

/-- C4: on the listing page with titles `["A","B"]`, urls `["/a","/b"]`,
thumbnails `["ta","tb"]` and raw durations `["1:30","0:45"]`, with the
mm:ss duration converter, exactly two items are created: `A` with integer
duration 90 and `B` with integer duration 45 — the converter's results are
what the store receives. -/
theorem c4_two_items_converted_durations :
    fetchVideosPageAndFindMetadata ["A", "B"] ["/a", "/b"] ["ta", "tb"]
        ["1:30", "0:45"] convertMMSSToSeconds =
      [⟨"A", "/a", "ta", 90⟩, ⟨"B", "/b", "tb", 45⟩] ∧
    (getOrCreateVideosFromMetadata 0 ⟨⟨[]⟩, []⟩
        (fetchVideosPageAndFindMetadata ["A", "B"] ["/a", "/b"] ["ta", "tb"]
          ["1:30", "0:45"] convertMMSSToSeconds)).1.store.recs =
      [⟨"A", "/a", "ta", 90, 0⟩, ⟨"B", "/b", "tb", 45, 0⟩] ∧
    (getOrCreateVideosFromMetadata 0 ⟨⟨[]⟩, []⟩
        (fetchVideosPageAndFindMetadata ["A", "B"] ["/a", "/b"] ["ta", "tb"]
          ["1:30", "0:45"] convertMMSSToSeconds)).1.createdVideosOnCrawl.length
      = 2 := by
  refine ⟨by decide, by decide, by decide⟩

/-! ### Page fetcher (`_download_videos_page`) -/

/-- A transport-level exception raised by `aiohttp` during the request or
body read. -/
inductive NetErr
  | timeout
  | connReset
deriving DecidableEq, Repr

/-- The errors a `_download` body can raise (ordinary Python exceptions,
caught and retried by the `tenacity` wrapper). -/
inductive CrawlError
  | net (e : NetErr)
  | noVideosFound
  | enrichFailed
deriving DecidableEq, Repr

/-- An HTTP response as seen by `_download_videos_page`: its status code
and its body text. -/
structure HttpResponse where
  status : Nat
  body : String
deriving DecidableEq, Repr

/-- The parsed document `lxml.html.fromstring` produces; parsing is an
external library call, embedded as wrapping the body. -/
structure HtmlTree where
  raw : String
deriving DecidableEq, Repr

/-- Embeds `lxml.html.fromstring`. -/
def parseHtml (body : String) : HtmlTree := ⟨body⟩

/-- The possible outcomes of a fetch step: a returned value, a raised
ordinary exception (propagates to the `@retry` wrapper), or `exit(1)`
(raises `SystemExit`, which `tenacity` does not catch — the process
terminates). -/
inductive FetchResult (α : Type)
  | ok (a : α)
  | raised (e : CrawlError)
  | fatalExit
deriving DecidableEq, Repr

/-- Embeds `_download_videos_page`: perform the GET (the argument is the outcome
of `session.get(url)` plus `response.text()` — either a raised transport
exception or a response).  On status 404, `exit(1)`.  On any other
status, the body is parsed with `lxml.html.fromstring` and returned; the
status code is not inspected further. -/
def downloadVideosPage : Except NetErr HttpResponse → FetchResult HtmlTree
  | .error e => .raised (.net e)
  | .ok r => if r.status = 404 then .fatalExit else .ok (parseHtml r.body)

/-- One execution of the fetch+process prefix of `_download`: a 404 exits
the process and a raised transport error propagates, in both cases before
any extraction or `Video.get_or_create` runs; otherwise the extracted
metadata (`extract` stands for the finder functions applied to the parsed
tree) is processed against the store. -/
def downloadAttempt (siteId : Nat) (fetch : Except NetErr HttpResponse)
    (extract : HtmlTree → List VideoMeta) (st : MixinState) :
    MixinState × FetchResult (List VideoRec) :=
  match downloadVideosPage fetch with
  | .fatalExit => (st, .fatalExit)
  | .raised e => (st, .raised e)
  | .ok tree =>
    let res := getOrCreateVideosFromMetadata siteId st (extract tree)
    (res.1, .ok res.2)

/-- Stateful bounded retry, as `tenacity.retry` wraps `_download`: re-run
the attempt on a raised (ordinary) exception while attempts remain;
return immediately on success; `SystemExit` from `exit(1)` is not caught,
so a fatal outcome also returns immediately.  `rem` is the number of
retries remaining after the current attempt, `i` the attempt index; state
changes made by failed attempts persist. -/
def retryDownload {α : Type} (att : Nat → MixinState → MixinState × FetchResult α) :
    Nat → Nat → MixinState → MixinState × FetchResult α
  | 0, i, st => att i st
  | rem + 1, i, st =>
    let out := att i st
    match out.2 with
    | .raised _ => retryDownload att rem (i + 1) out.1
    | _ => out

/-! ### Claim C3 -/

/-- C3 fails as stated: `aiohttp` does not raise on a non-2xx status and
`_download_videos_page` only inspects the status for 404, so an HTTP 500
response is not a retryable failure — its body is parsed and returned as
a successful document. -/
theorem c3_non_404_status_counterexample :
    downloadVideosPage (.ok ⟨500, "<html>oops</html>"⟩) =
      .ok (parseHtml "<html>oops</html>") := by
  rfl

/-- C3 (amended): a transport failure that raises (timeout, connection
reset) propagates out of `_download_videos_page` into the retry wrapper
and is retried; but an HTTP response with any status other than 404 —
including 500 or 403 — is never treated as a failure: its body is parsed
and returned as a successful document. -/
theorem c3_transport_raises_are_retryable (r : HttpResponse)
    (h : r.status ≠ 404) (e : NetErr) :
    downloadVideosPage (.ok r) = .ok (parseHtml r.body) ∧
    downloadVideosPage (.error e) = .raised (.net e) := by
  exact ⟨by simp [downloadVideosPage, h], rfl⟩

/-- Witness for C3 (amended) at status 500 and a timeout. -/
theorem c3_transport_raises_are_retryable_witness :
    ((500 : Nat) ≠ 404) ∧
    (downloadVideosPage (.ok ⟨500, "b"⟩) = .ok (parseHtml "b") ∧
      downloadVideosPage (.error .timeout) = .raised (.net .timeout)) :=
  ⟨by decide, c3_transport_raises_are_retryable ⟨500, "b"⟩ (by decide) .timeout⟩

/-! ### Claim C8 -/

/-- C8: a listing-page fetch returning HTTP 404 is fatal: `exit(1)` fires
before any extraction or creation, so the attempt creates no item
records (the state is returned untouched), and the surrounding retry
wrapper does not catch `SystemExit`, so no retry happens either — for any
remaining-retry budget the loop ends at once with the fatal outcome and
the untouched state. -/
theorem c8_listing_404_fatal (siteId : Nat) (r : HttpResponse)
    (h : r.status = 404) (extract : HtmlTree → List VideoMeta)
    (st : MixinState) (rem i : Nat) :
    downloadAttempt siteId (.ok r) extract st = (st, .fatalExit) ∧
    retryDownload (fun _ => downloadAttempt siteId (.ok r) extract) rem i st =
      (st, .fatalExit) := by
  have hone : downloadAttempt siteId (.ok r) extract st = (st, .fatalExit) := by
    simp [downloadAttempt, downloadVideosPage, h]
  refine ⟨hone, ?_⟩
  cases rem with
  | zero => exact hone
  | succ n => simp [retryDownload, hone]

/-- Witness for C8 at a concrete 404 response. -/
theorem c8_listing_404_fatal_witness :
    ((404 : Nat) = 404) ∧
    downloadAttempt 0 (.ok ⟨404, "gone"⟩) (fun _ => [⟨"A", "/a", "ta", 9⟩])
        ⟨⟨[]⟩, []⟩ =
      (⟨⟨[]⟩, []⟩, .fatalExit) :=
  ⟨rfl,
    (c8_listing_404_fatal 0 ⟨404, "gone"⟩ rfl (fun _ => [⟨"A", "/a", "ta", 9⟩])
      ⟨⟨[]⟩, []⟩ 5 0).1⟩

/-! ### Retry executor (`tenacity.retry(stop_after_attempt, wait_random)`) -/

/-- Embeds `tenacity.retry(stop=stop_after_attempt(maxAttempts),
wait=wait_random(8, 512))` around a pure fallible operation, instrumented
with the attempt count and the waits performed.  `op i` is attempt `i`'s
outcome; `delay i` is the random wait drawn after attempt `i` fails
(`wait_random(lo, hi)` draws `lo + random() * (hi - lo)`).  `rem` is the
number of retries still allowed after the current attempt.  On success
the result returns at once; when the attempt budget is exhausted the last
attempt's failure is surfaced (tenacity raises a `RetryError` carrying
the last attempt — no silent swallow). -/
def retryExecFrom {E A : Type} (op : Nat → Except E A) (delay : Nat → ℚ) :
    Nat → Nat → Except E A × Nat × List ℚ
  | rem, i =>
    match op i with
    | .ok a => (.ok a, 1, [])
    | .error e =>
      match rem with
      | 0 => (.error e, 1, [])
      | r + 1 =>
        let rest := retryExecFrom op delay r (i + 1)
        (rest.1, rest.2.1 + 1, delay i :: rest.2.2)

/-- The full executor: `maxAttempts` total attempts starting at attempt 0. -/
def retryExec {E A : Type} (op : Nat → Except E A) (delay : Nat → ℚ)
    (maxAttempts : Nat) : Except E A × Nat × List ℚ :=
  retryExecFrom op delay (maxAttempts - 1) 0

/-- On an operation failing at every attempt, the executor makes every
allowed attempt, returns the last failure, and waits once between
consecutive attempts. -/
theorem retryExecFrom_all_fail {E A : Type} (op : Nat → Except E A)
    (delay : Nat → ℚ) (e : Nat → E) (hop : ∀ i, op i = .error (e i)) :
    ∀ rem i, retryExecFrom op delay rem i =
      (.error (e (i + rem)), rem + 1,
        (List.range rem).map fun k => delay (i + k)) := by
  intro rem
  induction rem with
  | zero =>
    intro i
    simp [retryExecFrom, hop i]
  | succ r ih =>
    intro i
    rw [retryExecFrom]
    simp only [hop i, ih (i + 1)]
    have h1 : i + 1 + r = i + (r + 1) := by omega
    have h2 : (List.range (r + 1)).map (fun k => delay (i + k)) =
        delay i :: (List.range r).map fun k => delay (i + 1 + k) := by
      rw [List.range_succ_eq_map, List.map_cons, List.map_map]
      refine List.cons_eq_cons.mpr ⟨rfl, ?_⟩
      apply List.map_congr_left
      intro k _
      show delay (i + Nat.succ k) = delay (i + 1 + k)
      congr 1
      omega
    rw [h1, h2]

/-! ### Claim C6 -/

/-- C6: a wrapped operation that fails on every attempt is run exactly
`maxAttempts = 20` times; the executor waits once between consecutive
attempts (19 waits), each wait a random duration lying in `[8, 512]`
(`wait_random(8, 512)` draws uniformly from `[8, 512)`, a subset); and
after exhaustion the failure of the last attempt (attempt index 19) is
what reaches the caller — the last underlying failure is surfaced, not
swallowed. -/
theorem c6_retry_exhaustion {E A : Type} (op : Nat → Except E A)
    (delay : Nat → ℚ) (e : Nat → E) (hop : ∀ i, op i = .error (e i))
    (hdelay : ∀ i, 8 ≤ delay i ∧ delay i < 512) :
    (retryExec op delay 20).1 = .error (e 19) ∧
    (retryExec op delay 20).2.1 = 20 ∧
    (retryExec op delay 20).2.2.length = 19 ∧
    ∀ d ∈ (retryExec op delay 20).2.2, 8 ≤ d ∧ d ≤ 512 := by
  have h := retryExecFrom_all_fail op delay e hop 19 0
  unfold retryExec
  rw [h]
  refine ⟨rfl, rfl, by simp, ?_⟩
  intro d hd
  simp only [List.mem_map, List.mem_range] at hd
  obtain ⟨k, -, hk⟩ := hd
  obtain ⟨h1, h2⟩ := hdelay (0 + k)
  exact hk ▸ ⟨h1, le_of_lt (lt_of_lt_of_le h2 (by norm_num))⟩

/-- Witness for C6: an always-failing operation with constant wait 9 is
attempted exactly 20 times. -/
theorem c6_retry_exhaustion_witness :
    ((retryExec (fun i => (Except.error i : Except Nat Unit))
      (fun _ => (9 : ℚ)) 20).1 = .error 19) ∧
    (retryExec (fun i => (Except.error i : Except Nat Unit))
      (fun _ => (9 : ℚ)) 20).2.1 = 20 :=
  ⟨(c6_retry_exhaustion (fun i => .error i) (fun _ => 9) (fun i => i)
      (fun _ => rfl) (fun _ => ⟨by norm_num, by norm_num⟩)).1,
    (c6_retry_exhaustion (fun i => .error i) (fun _ => 9) (fun i => i)
      (fun _ => rfl) (fun _ => ⟨by norm_num, by norm_num⟩)).2.1⟩

/-! ### Crawl driver (`crawl` and `_download`) -/

/-- What one listing page yields once fetched and parsed: the extracted
metadata tuples and the result of `find_prev_page` (`none` models the
`IndexError` the finder raises when the selector matches nothing). -/
structure ListingPage where
  metadata : List VideoMeta
  prevPage : Option String

/-- The decision core of one successful-fetch `_download` body: the
processed `videos` list is empty exactly when the extracted metadata is
empty, in which case `ValueError('No videos found')` is raised; otherwise
the prev-page link decides the next url (`site_url + prev_page`, continue)
or, on the finder's `IndexError`, `should_continue_download = False`. -/
def downloadDecision (siteUrl : String) (env : String → ListingPage)
    (url : String) : Except CrawlError (String × Bool) :=
  if (env url).metadata = [] then .error .noVideosFound
  else
    match (env url).prevPage with
    | some p => .ok (siteUrl ++ p, true)
    | none => .ok (url, false)

/-! ### Claim C7 -/

/-- C7: a listing page whose extraction yields zero tuples makes
`_download` raise the "no videos found" error — it is never a normal
"stop pagination" result — and since `_download` is wrapped by the retry
executor, the error is retried exactly like a transient fetch failure:
with the page persistently empty, all 20 attempts run and the failure
that finally surfaces is still `noVideosFound`. -/
theorem c7_empty_listing_retried (siteUrl : String)
    (env : String → ListingPage) (url : String) (delay : Nat → ℚ)
    (h : (env url).metadata = []) :
    downloadDecision siteUrl env url = .error .noVideosFound ∧
    (∀ u : String, ∀ b : Bool,
      downloadDecision siteUrl env url ≠ .ok (u, b)) ∧
    (retryExec (fun _ => downloadDecision siteUrl env url) delay 20).1 =
      .error .noVideosFound ∧
    (retryExec (fun _ => downloadDecision siteUrl env url) delay 20).2.1 =
      20 := by
  have hone : downloadDecision siteUrl env url = .error .noVideosFound := by
    simp [downloadDecision, h]
  have hall := retryExecFrom_all_fail
    (fun _ => downloadDecision siteUrl env url) delay
    (fun _ => CrawlError.noVideosFound) (fun _ => hone) 19 0
  refine ⟨hone, ?_, ?_, ?_⟩
  · intro u b hc
    rw [hone] at hc
    cases hc
  · unfold retryExec
    rw [hall]
  · unfold retryExec
    rw [hall]

/-- Witness for C7 on a concrete always-empty listing page. -/
theorem c7_empty_listing_retried_witness :
    ((fun _ : String => (⟨[], none⟩ : ListingPage)) "s/idx").metadata = [] ∧
    (retryExec
      (fun _ => downloadDecision "s" (fun _ => ⟨[], none⟩) "s/idx")
      (fun _ => (8 : ℚ)) 20).2.1 = 20 :=
  ⟨rfl,
    (c7_empty_listing_retried "s" (fun _ => ⟨[], none⟩) "s/idx"
      (fun _ => 8) rfl).2.2.2⟩

/-! ### Claim C5 -/

/-- The `crawl` loop of the driver, restricted to counting listing-page
visits: run the `_download` decision on the current url; while
`should_continue_download` keep looping on the returned url.  `fuel`
bounds the recursion (the loop itself has no bound); a raised error
(which would go to the retry wrapper) yields `none`. -/
def crawlVisits (siteUrl : String) (env : String → ListingPage) :
    Nat → String → Option Nat
  | 0, _ => some 0
  | fuel + 1, url =>
    match downloadDecision siteUrl env url with
    | .error _ => none
    | .ok (url', true) => (crawlVisits siteUrl env fuel url').map (1 + ·)
    | .ok (_, false) => some 1

/-- Page `u`'s prev-page link leads the driver to url `u'`: the selector
matched and `site_url + prev_page = u'`. -/
def followsTo (siteUrl : String) (env : String → ListingPage)
    (u u' : String) : Prop :=
  match (env u).prevPage with
  | some p => siteUrl ++ p = u'
  | none => False

/-- The urls form a finite prev-page chain: every page extracts at least
one video, each page's link leads to the next url, and the last page's
prev-page selector yields no match. -/
def chainOk (siteUrl : String) (env : String → ListingPage) :
    List String → Prop
  | [] => False
  | [u] => (env u).metadata ≠ [] ∧ (env u).prevPage = none
  | u :: u' :: rest =>
    (env u).metadata ≠ [] ∧ followsTo siteUrl env u u' ∧
      chainOk siteUrl env (u' :: rest)

/-- C5: on a finite prev-page chain of length `n` (each page extracting
at least one item, the last page's prev-page selector yielding no match),
the crawl loop visits exactly `n` listing pages and stops: every found
link continues the loop at `site_url + link`, and the lookup miss clears
`should_continue_download`. -/
theorem c5_chain_termination (siteUrl : String)
    (env : String → ListingPage) (u : String) (rest : List String)
    (hchain : chainOk siteUrl env (u :: rest)) (fuel : Nat)
    (hfuel : rest.length + 1 ≤ fuel) :
    crawlVisits siteUrl env fuel u = some (rest.length + 1) := by
  induction rest generalizing u fuel with
  | nil =>
    obtain ⟨hne, hprev⟩ := hchain
    obtain ⟨f, rfl⟩ : ∃ f, fuel = f + 1 := by
      cases fuel with
      | zero => omega
      | succ f => exact ⟨f, rfl⟩
    simp [crawlVisits, downloadDecision, hne, hprev]
  | cons u' rest ih =>
    obtain ⟨hne, hfollow, hchain'⟩ := hchain
    obtain ⟨f, rfl⟩ : ∃ f, fuel = f + 1 := by
      cases fuel with
      | zero => omega
      | succ f => exact ⟨f, rfl⟩
    unfold followsTo at hfollow
    cases hprev : (env u).prevPage with
    | none => rw [hprev] at hfollow; cases hfollow
    | some p =>
      have hfollow' : siteUrl ++ p = u' := by rw [hprev] at hfollow; exact hfollow
      have hrec := ih u' hchain' f (by simpa using Nat.lt_succ_iff.mp hfuel)
      simp only [crawlVisits, downloadDecision, if_neg hne, hprev, hfollow']
      rw [hrec]
      simp only [Option.map_some', List.length_cons, Option.some.injEq]
      omega

/-- Witness for C5 on a concrete three-page chain
`"s/p3" → "s/p2" → "s/p1" → none`. -/
theorem c5_chain_termination_witness :
    chainOk "s"
      (fun url =>
        if url = "s/p3" then ⟨[⟨"A", "/a", "t", 1⟩], some "/p2"⟩
        else if url = "s/p2" then ⟨[⟨"B", "/b", "t", 2⟩], some "/p1"⟩
        else ⟨[⟨"C", "/c", "t", 3⟩], none⟩)
      ["s/p3", "s/p2", "s/p1"] ∧
    crawlVisits "s"
      (fun url =>
        if url = "s/p3" then ⟨[⟨"A", "/a", "t", 1⟩], some "/p2"⟩
        else if url = "s/p2" then ⟨[⟨"B", "/b", "t", 2⟩], some "/p1"⟩
        else ⟨[⟨"C", "/c", "t", 3⟩], none⟩)
      5 "s/p3" = some 3 := by
  have hchain : chainOk "s"
      (fun url =>
        if url = "s/p3" then ⟨[⟨"A", "/a", "t", 1⟩], some "/p2"⟩
        else if url = "s/p2" then ⟨[⟨"B", "/b", "t", 2⟩], some "/p1"⟩
        else ⟨[⟨"C", "/c", "t", 3⟩], none⟩)
      ["s/p3", "s/p2", "s/p1"] := by
    refine ⟨by decide, ?_, by decide, ?_, by decide, by decide⟩
    · show ("s" ++ "/p2" : String) = "s/p2"
      rfl
    · show ("s" ++ "/p1" : String) = "s/p1"
      rfl
  exact ⟨hchain,
    c5_chain_termination "s" _ "s/p3" ["s/p2", "s/p1"] hchain 5 (by norm_num)⟩

/-! ### Tag slugging (`inflection.parameterize` / `inflection.humanize`,
modelled for ASCII input, where transliteration is the identity) -/

/-- Characters surviving `parameterize`'s substitution of
`[^a-z0-9\-_]+` (case-insensitive) by the separator. -/
def isSlugKeep (c : Char) : Bool :=
  ('a' ≤ c && c ≤ 'z') || ('A' ≤ c && c ≤ 'Z') || ('0' ≤ c && c ≤ '9') ||
    c = '-' || c = '_'

/-- Collapse runs of dashes to a single dash
(`re.sub(r'-{2,}', '-', s)`); the flag records whether the previous kept
character was a dash. -/
def collapseDashes : Bool → List Char → List Char
  | _, [] => []
  | prevDash, c :: rest =>
    if c = '-' then
      if prevDash then collapseDashes true rest
      else '-' :: collapseDashes true rest
    else c :: collapseDashes false rest

/-- Remove a single leading dash (`re.sub` of `^-`). -/
def dropLeadDash : List Char → List Char
  | '-' :: rest => rest
  | l => l

/-- Embeds `inflection.parameterize(s)` with the default `"-"` separator:
replace every run of unwanted characters by a dash, collapse dash runs,
strip one leading and one trailing dash, lowercase. -/
def parameterize (s : String) : String :=
  let cs := s.data.map fun c => if isSlugKeep c then c else '-'
  let cs := collapseDashes false cs
  let cs := dropLeadDash cs
  let cs := (dropLeadDash cs.reverse).reverse
  String.mk (cs.map Char.toLower)

/-- Embeds `inflection.humanize(s)`: strip a trailing `"_id"`, turn underscores
into spaces, lowercase, capitalize the first character. -/
def humanize (s : String) : String :=
  let cs := s.data
  let cs := if cs.reverse.take 3 = ['d', 'i', '_'] then
    cs.take (cs.length - 3) else cs
  let cs := cs.map fun c => if c = '_' then ' ' else c
  let cs := cs.map Char.toLower
  match cs with
  | [] => ""
  | c :: rest => String.mk (c.toUpper :: rest)

/-! ### Tag persistence (`save_video_details`) -/

/-- A persisted `Tag` row: display text and slug. -/
structure TagRec where
  tag : String
  slug : String
deriving DecidableEq, Repr

/-- The `Tag` and `VideoTag` tables. -/
structure TagStore where
  tags : List TagRec
  videoTags : List (VideoRec × TagRec)
deriving DecidableEq, Repr

/-- Embeds `Tag.get_or_create(tag=…, slug=…)`: both passed fields are lookup
keys. -/
def TagStore.tagGetOrCreate (st : TagStore) (tagName slug : String) :
    TagStore × TagRec :=
  match st.tags.find? (fun t => t.tag == tagName && t.slug == slug) with
  | some t => (st, t)
  | none => ({ st with tags := st.tags ++ [⟨tagName, slug⟩] }, ⟨tagName, slug⟩)

/-- Embeds `VideoTag.get_or_create(video=…, tag=…)`. -/
def TagStore.videoTagGetOrCreate (st : TagStore) (v : VideoRec)
    (t : TagRec) : TagStore :=
  if (v, t) ∈ st.videoTags then st
  else { st with videoTags := st.videoTags ++ [(v, t)] }

/-- Embeds `save_video_details(video, details)`: for each found tag string, the
slug is `parameterize(found_tag.strip())` and the display text
`humanize(slug)`; an empty slug is skipped entirely; otherwise the Tag
and the (video, tag) association are get-or-created. -/
def saveVideoDetails (v : VideoRec) : TagStore → List String → TagStore
  | st, [] => st
  | st, found :: rest =>
    let slug := parameterize (pyStrip found)
    if slug = "" then saveVideoDetails v st rest
    else
      let res := st.tagGetOrCreate (humanize slug) slug
      saveVideoDetails v (res.1.videoTagGetOrCreate v res.2) rest

/-! ### Detail enricher (`_find_more_videos_metadata`) -/

/-- Outcome of one video's detail-page task
(`_fetch_video_page_and_find_metadata` body, after its own retry
wrapper): the page 404s — the task logs a warning and returns, touching
nothing — or the tag list is extracted from the fetched page. -/
inductive DetailFetch
  | notFound
  | found (tags : List String)
deriving DecidableEq, Repr

/-- One video's enrichment task. -/
def fetchVideoPageAndFindMetadata (st : TagStore) (v : VideoRec) :
    DetailFetch → TagStore
  | .notFound => st
  | .found tags => saveVideoDetails v st tags

/-- Embeds `_find_more_videos_metadata`: `asyncio.gather` over the per-video
tasks.  Each task owns exactly one video's associations and the shared
get-or-creates are atomic (spec §5), so the joined batch effect is the
tasks' effects in sequence; the function is total — a 404 outcome raises
nothing. -/
def findMoreVideosMetadata (outcome : VideoRec → DetailFetch) :
    TagStore → List VideoRec → TagStore
  | st, [] => st
  | st, v :: vs =>
    findMoreVideosMetadata outcome
      (fetchVideoPageAndFindMetadata st v (outcome v)) vs

/-! ### Lemmas about tag persistence -/

theorem TagStore.tagGetOrCreate_videoTags (st : TagStore) (n s : String) :
    (st.tagGetOrCreate n s).1.videoTags = st.videoTags := by
  unfold TagStore.tagGetOrCreate
  cases st.tags.find? (fun t => t.tag == n && t.slug == s) <;> rfl

theorem TagStore.tagGetOrCreate_ret_slug (st : TagStore) (n s : String) :
    (st.tagGetOrCreate n s).2.slug = s ∧ (st.tagGetOrCreate n s).2.tag = n := by
  unfold TagStore.tagGetOrCreate
  cases hf : st.tags.find? (fun t => t.tag == n && t.slug == s) with
  | none => exact ⟨rfl, rfl⟩
  | some t =>
    have := List.find?_some hf
    simp only [Bool.and_eq_true, beq_iff_eq] at this
    exact ⟨this.2, this.1⟩

theorem TagStore.tagGetOrCreate_ret_mem (st : TagStore) (n s : String) :
    (st.tagGetOrCreate n s).2 ∈ (st.tagGetOrCreate n s).1.tags := by
  unfold TagStore.tagGetOrCreate
  cases hf : st.tags.find? (fun t => t.tag == n && t.slug == s) with
  | none => simp
  | some t => simpa using List.mem_of_find?_eq_some hf

theorem TagStore.tagGetOrCreate_tags_mono (st : TagStore) (n s : String)
    (t : TagRec) (h : t ∈ st.tags) : t ∈ (st.tagGetOrCreate n s).1.tags := by
  unfold TagStore.tagGetOrCreate
  cases st.tags.find? (fun t => t.tag == n && t.slug == s) with
  | none => simp [h]
  | some _ => simpa using h

theorem TagStore.tagGetOrCreate_tags_new (st : TagStore) (n s : String)
    (t : TagRec) (h : t ∈ (st.tagGetOrCreate n s).1.tags) :
    t ∈ st.tags ∨ t = ⟨n, s⟩ := by
  unfold TagStore.tagGetOrCreate at h
  cases hf : st.tags.find? (fun t => t.tag == n && t.slug == s) with
  | none =>
    rw [hf] at h
    simpa using h
  | some _ =>
    rw [hf] at h
    exact Or.inl h

theorem TagStore.videoTagGetOrCreate_tags (st : TagStore) (v : VideoRec)
    (t : TagRec) : (st.videoTagGetOrCreate v t).tags = st.tags := by
  unfold TagStore.videoTagGetOrCreate
  split <;> rfl

theorem TagStore.videoTagGetOrCreate_mem (st : TagStore) (v : VideoRec)
    (t : TagRec) : (v, t) ∈ (st.videoTagGetOrCreate v t).videoTags := by
  unfold TagStore.videoTagGetOrCreate
  split
  · assumption
  · simp

theorem TagStore.videoTagGetOrCreate_mono (st : TagStore) (v : VideoRec)
    (t : TagRec) (pr : VideoRec × TagRec) (h : pr ∈ st.videoTags) :
    pr ∈ (st.videoTagGetOrCreate v t).videoTags := by
  unfold TagStore.videoTagGetOrCreate
  split
  · exact h
  · simp [h]

theorem TagStore.videoTagGetOrCreate_new (st : TagStore) (v : VideoRec)
    (t : TagRec) (pr : VideoRec × TagRec)
    (h : pr ∈ (st.videoTagGetOrCreate v t).videoTags) :
    pr ∈ st.videoTags ∨ pr = (v, t) := by
  unfold TagStore.videoTagGetOrCreate at h
  split at h
  · exact Or.inl h
  · simpa using h

/-- The function `save_video_details` only adds associations. -/
theorem saveVideoDetails_vt_mono (v : VideoRec) (raws : List String)
    (st : TagStore) (pr : VideoRec × TagRec) (h : pr ∈ st.videoTags) :
    pr ∈ (saveVideoDetails v st raws).videoTags := by
  induction raws generalizing st with
  | nil => exact h
  | cons raw rest ih =>
    simp only [saveVideoDetails]
    split
    · exact ih st h
    · apply ih
      apply TagStore.videoTagGetOrCreate_mono
      rw [TagStore.tagGetOrCreate_videoTags]
      exact h

/-- The function `save_video_details` only adds Tag rows. -/
theorem saveVideoDetails_tags_mono (v : VideoRec) (raws : List String)
    (st : TagStore) (t : TagRec) (h : t ∈ st.tags) :
    t ∈ (saveVideoDetails v st raws).tags := by
  induction raws generalizing st with
  | nil => exact h
  | cons raw rest ih =>
    simp only [saveVideoDetails]
    split
    · exact ih st h
    · apply ih
      rw [TagStore.videoTagGetOrCreate_tags]
      exact TagStore.tagGetOrCreate_tags_mono _ _ _ _ h

/-- Every association `save_video_details(video, …)` adds is for that
video and carries a nonempty slug. -/
theorem saveVideoDetails_vt_new (v : VideoRec) (raws : List String)
    (st : TagStore) (pr : VideoRec × TagRec)
    (h : pr ∈ (saveVideoDetails v st raws).videoTags) :
    pr ∈ st.videoTags ∨ (pr.1 = v ∧ pr.2.slug ≠ "") := by
  induction raws generalizing st with
  | nil => exact Or.inl h
  | cons raw rest ih =>
    rw [saveVideoDetails] at h
    split at h
    · exact ih st h
    · rename_i hslug
      rcases ih _ h with h' | h'
      · rcases TagStore.videoTagGetOrCreate_new _ _ _ _ h' with h'' | h''
        · rw [TagStore.tagGetOrCreate_videoTags] at h''
          exact Or.inl h''
        · refine Or.inr ?_
          subst h''
          exact ⟨rfl, by
            rw [(TagStore.tagGetOrCreate_ret_slug st _ _).1]
            exact hslug⟩
      · exact Or.inr h'

/-- Every raw tag with a nonempty slug ends up as a Tag row with that
slug, associated to the video. -/
theorem saveVideoDetails_adds (v : VideoRec) (raws : List String)
    (st : TagStore) (raw : String) (hraw : raw ∈ raws)
    (hslug : parameterize (pyStrip raw) ≠ "") :
    ∃ t : TagRec, t.slug = parameterize (pyStrip raw) ∧
      t ∈ (saveVideoDetails v st raws).tags ∧
      (v, t) ∈ (saveVideoDetails v st raws).videoTags := by
  induction raws generalizing st with
  | nil => cases hraw
  | cons r0 rest ih =>
    rcases List.mem_cons.mp hraw with h | h
    · subst h
      rw [saveVideoDetails]
      split
      · exact absurd (by assumption) hslug
      · set res := st.tagGetOrCreate (humanize (parameterize (pyStrip raw)))
          (parameterize (pyStrip raw)) with hres
        refine ⟨res.2, (TagStore.tagGetOrCreate_ret_slug st _ _).1, ?_, ?_⟩
        · apply saveVideoDetails_tags_mono
          rw [TagStore.videoTagGetOrCreate_tags]
          exact TagStore.tagGetOrCreate_ret_mem st _ _
        · apply saveVideoDetails_vt_mono
          exact TagStore.videoTagGetOrCreate_mem _ _ _
    · rw [saveVideoDetails]
      split
      · exact ih _ h
      · exact ih _ h

/-! ### Lemmas about the enrichment batch -/

/-- The batch only adds associations. -/
theorem findMore_vt_mono (outcome : VideoRec → DetailFetch)
    (videos : List VideoRec) (st : TagStore) (pr : VideoRec × TagRec)
    (h : pr ∈ st.videoTags) :
    pr ∈ (findMoreVideosMetadata outcome st videos).videoTags := by
  induction videos generalizing st with
  | nil => exact h
  | cons v vs ih =>
    simp only [findMoreVideosMetadata]
    apply ih
    unfold fetchVideoPageAndFindMetadata
    cases outcome v with
    | notFound => exact h
    | found tags => exact saveVideoDetails_vt_mono v tags st pr h

/-- Every association the batch adds belongs to a video whose detail
fetch succeeded (its task extracted a tag list). -/
theorem findMore_vt_new (outcome : VideoRec → DetailFetch)
    (videos : List VideoRec) (st : TagStore) (pr : VideoRec × TagRec)
    (h : pr ∈ (findMoreVideosMetadata outcome st videos).videoTags) :
    pr ∈ st.videoTags ∨ ∃ tags, outcome pr.1 = .found tags := by
  induction videos generalizing st with
  | nil => exact Or.inl h
  | cons v vs ih =>
    rw [findMoreVideosMetadata] at h
    rcases ih _ h with h' | h'
    · unfold fetchVideoPageAndFindMetadata at h'
      cases hv : outcome v with
      | notFound =>
        rw [hv] at h'
        exact Or.inl h'
      | found tags =>
        rw [hv] at h'
        rcases saveVideoDetails_vt_new v tags st pr h' with h'' | h''
        · exact Or.inl h''
        · exact Or.inr ⟨tags, h''.1 ▸ hv⟩
    · exact Or.inr h'

/-- Every video of the batch whose detail fetch succeeded receives an
association for each of its nonempty-slug raw tags. -/
theorem findMore_adds (outcome : VideoRec → DetailFetch)
    (videos : List VideoRec) (st : TagStore) (v : VideoRec)
    (hv : v ∈ videos) (tags : List String) (hout : outcome v = .found tags)
    (raw : String) (hraw : raw ∈ tags)
    (hslug : parameterize (pyStrip raw) ≠ "") :
    ∃ t : TagRec, t.slug = parameterize (pyStrip raw) ∧
      (v, t) ∈ (findMoreVideosMetadata outcome st videos).videoTags := by
  induction videos generalizing st with
  | nil => cases hv
  | cons v0 vs ih =>
    rcases List.mem_cons.mp hv with h | h
    · subst h
      rw [findMoreVideosMetadata]
      obtain ⟨t, ht1, -, ht3⟩ :=
        saveVideoDetails_adds v tags st raw hraw hslug
      refine ⟨t, ht1, ?_⟩
      apply findMore_vt_mono
      unfold fetchVideoPageAndFindMetadata
      rw [hout]
      exact ht3
    · rw [findMoreVideosMetadata]
      exact ih _ h

/-! ### Claim C2 -/

/-- C2: one item's detail-page 404 never prevents the other items'
enrichment and never aborts the batch.  The batch join is a total
function (the failing task handles the 404 internally — no exception
escapes `asyncio.gather`); the failed item's associations after the
batch are exactly those it had before (it gets none); and every item
whose fetch succeeded still receives an association for each of its
nonempty-slug raw tags. -/
theorem c2_partial_enrichment_tolerance (outcome : VideoRec → DetailFetch)
    (videos : List VideoRec) (st0 : TagStore) (vf : VideoRec)
    (hf : outcome vf = .notFound) :
    (∀ t : TagRec,
      (vf, t) ∈ (findMoreVideosMetadata outcome st0 videos).videoTags ↔
        (vf, t) ∈ st0.videoTags) ∧
    (∀ v ∈ videos, ∀ tags, outcome v = .found tags →
      ∀ raw ∈ tags, parameterize (pyStrip raw) ≠ "" →
        ∃ t : TagRec, t.slug = parameterize (pyStrip raw) ∧
          (v, t) ∈ (findMoreVideosMetadata outcome st0 videos).videoTags) := by
  constructor
  · intro t
    constructor
    · intro h
      rcases findMore_vt_new outcome videos st0 (vf, t) h with h' | ⟨tags, h'⟩
      · exact h'
      · rw [hf] at h'
        cases h'
    · exact findMore_vt_mono outcome videos st0 (vf, t)
  · intro v hv tags hout raw hraw hslug
    exact findMore_adds outcome videos st0 v hv tags hout raw hraw hslug

/-- The 3-item batch of the spec's scenario: item 2's detail page 404s. -/
def c2Videos : List VideoRec :=
  [⟨"V1", "/1", "t1", 1, 0⟩, ⟨"V2", "/2", "t2", 2, 0⟩,
    ⟨"V3", "/3", "t3", 3, 0⟩]

/-- Detail-fetch outcomes for the scenario: `/2` 404s, the others yield a
tag list. -/
def c2Outcome : VideoRec → DetailFetch :=
  fun v => if v.url = "/2" then .notFound else .found ["Cool Cats"]

/-- Witness for C2 on the 3-item batch where item 2 returns 404. -/
theorem c2_partial_enrichment_tolerance_witness :
    c2Outcome ⟨"V2", "/2", "t2", 2, 0⟩ = .notFound ∧
    ((∀ t : TagRec,
      ((⟨"V2", "/2", "t2", 2, 0⟩ : VideoRec), t) ∈
          (findMoreVideosMetadata c2Outcome ⟨[], []⟩ c2Videos).videoTags ↔
        ((⟨"V2", "/2", "t2", 2, 0⟩ : VideoRec), t) ∈
          (⟨[], []⟩ : TagStore).videoTags) ∧
    (∀ v ∈ c2Videos, ∀ tags, c2Outcome v = .found tags →
      ∀ raw ∈ tags, parameterize (pyStrip raw) ≠ "" →
        ∃ t : TagRec, t.slug = parameterize (pyStrip raw) ∧
          (v, t) ∈ (findMoreVideosMetadata c2Outcome ⟨[], []⟩
            c2Videos).videoTags)) :=
  ⟨by decide,
    c2_partial_enrichment_tolerance c2Outcome c2Videos ⟨[], []⟩
      ⟨"V2", "/2", "t2", 2, 0⟩ (by decide)⟩

/-! ### Claim C9 -/

/-- The canonical-slug invariant of the tag tables: every Tag row's
display text is derived from its slug by `humanize`, no two Tag rows
share a slug, and no (video, tag) association is duplicated. -/
def TagInv (st : TagStore) : Prop :=
  (∀ t ∈ st.tags, t.tag = humanize t.slug) ∧
  (st.tags.map TagRec.slug).Nodup ∧
  st.videoTags.Nodup

/-- Calling `Tag.get_or_create(tag=humanize(slug), slug=slug)` preserves the
canonical-slug invariant: because the display text is a function of the
slug, matching on the (tag, slug) pair coincides with matching on the
slug alone, so no second row with an existing slug is ever inserted. -/
theorem TagStore.tagGetOrCreate_inv (st : TagStore) (s : String)
    (h1 : ∀ t ∈ st.tags, t.tag = humanize t.slug)
    (h2 : (st.tags.map TagRec.slug).Nodup) :
    (∀ t ∈ (st.tagGetOrCreate (humanize s) s).1.tags,
      t.tag = humanize t.slug) ∧
    ((st.tagGetOrCreate (humanize s) s).1.tags.map TagRec.slug).Nodup := by
  unfold TagStore.tagGetOrCreate
  cases hf : st.tags.find? (fun t => t.tag == humanize s && t.slug == s) with
  | some t => exact ⟨h1, h2⟩
  | none =>
    have hs : ∀ t ∈ st.tags, t.slug ≠ s := by
      intro t ht hc
      have hp := List.find?_eq_none.mp hf t ht
      simp only [Bool.and_eq_true, beq_iff_eq, not_and] at hp
      exact hp (by rw [h1 t ht, hc]) hc
    constructor
    · intro t ht
      simp only [List.mem_append, List.mem_singleton] at ht
      rcases ht with h | h
      · exact h1 t h
      · subst h
        rfl
    · rw [List.map_append]
      simp only [List.map_cons, List.map_nil]
      rw [List.nodup_append]
      refine ⟨h2, List.nodup_singleton s, ?_⟩
      intro x hx hx'
      simp only [List.mem_singleton] at hx'
      subst hx'
      obtain ⟨t, ht, hts⟩ := List.mem_map.mp hx
      exact hs t ht hts

/-- The operation `VideoTag.get_or_create` inserts only absent pairs, keeping the
association list duplicate-free. -/
theorem TagStore.videoTagGetOrCreate_nodup (st : TagStore) (v : VideoRec)
    (t : TagRec) (h : st.videoTags.Nodup) :
    (st.videoTagGetOrCreate v t).videoTags.Nodup := by
  unfold TagStore.videoTagGetOrCreate
  split
  · exact h
  · rename_i hnm
    rw [List.nodup_append]
    refine ⟨h, List.nodup_singleton _, ?_⟩
    intro x hx hx'
    simp only [List.mem_singleton] at hx'
    subst hx'
    exact hnm hx

/-- The function `save_video_details` preserves the canonical-slug invariant. -/
theorem saveVideoDetails_inv (v : VideoRec) (raws : List String)
    (st : TagStore) (hinv : TagInv st) :
    TagInv (saveVideoDetails v st raws) := by
  induction raws generalizing st with
  | nil => exact hinv
  | cons raw rest ih =>
    rw [saveVideoDetails]
    split
    · exact ih st hinv
    · apply ih
      obtain ⟨h1, h2, h3⟩ := hinv
      obtain ⟨h1', h2'⟩ := TagStore.tagGetOrCreate_inv st
        (parameterize (pyStrip raw)) h1 h2
      refine ⟨?_, ?_, ?_⟩
      · rw [TagStore.videoTagGetOrCreate_tags]
        exact h1'
      · rw [TagStore.videoTagGetOrCreate_tags]
        exact h2'
      · apply TagStore.videoTagGetOrCreate_nodup
        rw [TagStore.tagGetOrCreate_videoTags]
        exact h3

/-- Characterization of the Tag rows after `save_video_details`: each is
either an old row or carries the nonempty slug of one of the raw tags. -/
theorem saveVideoDetails_tags_new (v : VideoRec) (raws : List String)
    (st : TagStore) (t : TagRec)
    (h : t ∈ (saveVideoDetails v st raws).tags) :
    t ∈ st.tags ∨
      (t.slug ≠ "" ∧ ∃ raw ∈ raws, parameterize (pyStrip raw) = t.slug) := by
  induction raws generalizing st with
  | nil => exact Or.inl h
  | cons raw rest ih =>
    rw [saveVideoDetails] at h
    split at h
    · rcases ih st h with h' | ⟨hne, raw', hraw', hs⟩
      · exact Or.inl h'
      · exact Or.inr ⟨hne, raw', List.mem_cons_of_mem raw hraw', hs⟩
    · rename_i hslug
      rcases ih _ h with h' | ⟨hne, raw', hraw', hs⟩
      · rw [TagStore.videoTagGetOrCreate_tags] at h'
        rcases TagStore.tagGetOrCreate_tags_new st _ _ t h' with h'' | h''
        · exact Or.inl h''
        · subst h''
          exact Or.inr ⟨hslug, raw, List.mem_cons_self raw rest, rfl⟩
      · exact Or.inr ⟨hne, raw', List.mem_cons_of_mem raw hraw', hs⟩

/-- C9: starting from tag tables in the canonical state, attaching a raw
tag list to an item (a) keeps the canonical state — in particular no two
Tag rows share a slug, so any two raw tags normalizing to the same slug
resolve to one single Tag record, and the association list stays
duplicate-free, so there is at most one association per (item, tag)
pair; (b) creates a Tag row only for a nonempty normalized slug of some
raw tag — a raw tag with an empty slug creates no Tag row; (c) creates
associations only to nonempty-slug tags — an empty slug creates no
association; and (d) gives every nonempty-slug raw tag a Tag row with
exactly that slug, associated to the item.  Slug-equal Tag rows being
equal is stated explicitly in (e). -/
theorem c9_tag_canonicalization (st : TagStore) (v : VideoRec)
    (raws : List String) (hinv : TagInv st) :
    TagInv (saveVideoDetails v st raws) ∧
    (∀ t ∈ (saveVideoDetails v st raws).tags, t ∈ st.tags ∨
      (t.slug ≠ "" ∧ ∃ raw ∈ raws, parameterize (pyStrip raw) = t.slug)) ∧
    (∀ pr ∈ (saveVideoDetails v st raws).videoTags,
      pr ∈ st.videoTags ∨ pr.2.slug ≠ "") ∧
    (∀ raw ∈ raws, parameterize (pyStrip raw) ≠ "" →
      ∃ t : TagRec, t.slug = parameterize (pyStrip raw) ∧
        t ∈ (saveVideoDetails v st raws).tags ∧
        (v, t) ∈ (saveVideoDetails v st raws).videoTags) ∧
    (∀ t1 ∈ (saveVideoDetails v st raws).tags,
      ∀ t2 ∈ (saveVideoDetails v st raws).tags,
        t1.slug = t2.slug → t1 = t2) := by
  have hinv' := saveVideoDetails_inv v raws st hinv
  refine ⟨hinv', ?_, ?_, ?_, ?_⟩
  · exact saveVideoDetails_tags_new v raws st
  · intro pr hpr
    rcases saveVideoDetails_vt_new v raws st pr hpr with h | h
    · exact Or.inl h
    · exact Or.inr h.2
  · exact saveVideoDetails_adds v raws st
  · intro t1 h1 t2 h2 hs
    exact List.inj_on_of_nodup_map hinv'.2.1 h1 h2 hs

/-- Witness for C9: two raw tags that only differ in capitalization and
punctuation, plus one that slugs to the empty string, on empty tables. -/
theorem c9_tag_canonicalization_witness :
    TagInv ⟨[], []⟩ ∧
    TagInv (saveVideoDetails ⟨"V1", "/1", "t1", 1, 0⟩ ⟨[], []⟩
      ["Big Tits", " big-tits!! ", "???"]) :=
  have hinv : TagInv ⟨[], []⟩ := ⟨by simp, by simp, by simp⟩
  ⟨hinv,
    (c9_tag_canonicalization ⟨[], []⟩ ⟨"V1", "/1", "t1", 1, 0⟩
      ["Big Tits", " big-tits!! ", "???"] hinv).1⟩

/-! ### Claim C10 -/

/-- One full `_download` attempt at attempt index `i` over the (fixed)
metadata the listing page extracts: `_get_or_create_videos_from_metadata`
runs first — this is where `created_videos_on_crawl` grows, and nothing
in `_download` resets it (the reset sits at the top of `crawl`'s loop,
outside the retry wrapper) — then enrichment, whose per-attempt failure
the oracle `enrichFails` dictates (an exception escaping
`asyncio.gather`, after the creations), then the "no videos" check on
the processed list. -/
def downloadStateAttempt (siteId : Nat) (ms : List VideoMeta)
    (enrichFails : Nat → Bool) (i : Nat) (st : MixinState) :
    MixinState × Except CrawlError Unit :=
  if enrichFails i then
    ((getOrCreateVideosFromMetadata siteId st ms).1, .error .enrichFailed)
  else if (getOrCreateVideosFromMetadata siteId st ms).2.isEmpty then
    ((getOrCreateVideosFromMetadata siteId st ms).1, .error .noVideosFound)
  else ((getOrCreateVideosFromMetadata siteId st ms).1, .ok ())

/-- The `tenacity` wrapper around the stateful `_download` attempt: store
writes and accumulator appends made by a failed attempt persist into the
retry.  `rem` is the number of retries remaining after the current
attempt `i`. -/
def retryStateExec {E A : Type}
    (att : Nat → MixinState → MixinState × Except E A) :
    Nat → Nat → MixinState → MixinState × Except E A
  | 0, i, st => att i st
  | rem + 1, i, st =>
    match att i st with
    | (st', .ok a) => (st', .ok a)
    | (st', .error _) => retryStateExec att rem (i + 1) st'

/-- On a state already holding every metadata key, a `_download` attempt
changes nothing: every `get_or_create` reports "not created", so the
accumulator is not re-appended; the attempt succeeds iff enrichment
does. -/
theorem downloadStateAttempt_stable (siteId : Nat) (ms : List VideoMeta)
    (enrichFails : Nat → Bool) (i : Nat) (st : MixinState)
    (hpres : ∀ m ∈ ms, videoKey siteId m ∈ st.store.recs) (hne : ms ≠ []) :
    downloadStateAttempt siteId ms enrichFails i st =
      (st, if enrichFails i then .error .enrichFailed else .ok ()) := by
  have h1 := getOrCreateVideos_all_present siteId st ms hpres
  have h2 := getOrCreateVideos_snd siteId st ms
  have h3 : (ms.map (videoKey siteId)).isEmpty = false := by
    cases ms with
    | nil => exact absurd rfl hne
    | cons m ms' => rfl
  unfold downloadStateAttempt
  rw [h1, h2, h3]
  split <;> rfl

/-- Once the store holds every key, the retry loop never changes the
state again and returns success at the first attempt whose enrichment
succeeds. -/
theorem retryStateExec_stable (siteId : Nat) (ms : List VideoMeta)
    (enrichFails : Nat → Bool) (hne : ms ≠ []) (k : Nat)
    (hkok : enrichFails k = false) :
    ∀ rem i st, (∀ m ∈ ms, videoKey siteId m ∈ st.store.recs) →
      (∀ j, i ≤ j → j < k → enrichFails j = true) →
      i ≤ k → k ≤ i + rem →
      retryStateExec (downloadStateAttempt siteId ms enrichFails) rem i st =
        (st, .ok ()) := by
  intro rem
  induction rem with
  | zero =>
    intro i st hpres hfail hik hki
    have hik' : i = k := by omega
    subst hik'
    rw [retryStateExec, downloadStateAttempt_stable siteId ms enrichFails i
      st hpres hne, hkok]
    rfl
  | succ r ih =>
    intro i st hpres hfail hik hki
    rcases eq_or_lt_of_le hik with rfl | hlt
    · rw [retryStateExec,
        downloadStateAttempt_stable siteId ms enrichFails i st hpres hne,
        hkok]
      rfl
    · have hfi : enrichFails i = true := hfail i le_rfl hlt
      rw [retryStateExec,
        downloadStateAttempt_stable siteId ms enrichFails i st hpres hne,
        hfi]
      exact ih (i + 1) st hpres (fun j hj1 hj2 => hfail j (by omega) hj2)
        hlt (by omega)

/-- C10: the `created_videos_on_crawl` accumulator is reset only at the
top of each `crawl` iteration, never between retry attempts of
`_download`.  With attempts `0 … k-1` failing during enrichment (after
their creations) and attempt `k` succeeding, the items created during
failed attempt 0 are still in the accumulator when `_download` returns —
that accumulator is exactly what `crawl` then hands to the notifier —
and since `get_or_create` reports them as not created on re-encounter,
each item occurs exactly once (the accumulator equals the
duplicate-free key list). -/
theorem c10_accumulator_across_retries (siteId : Nat) (ms : List VideoMeta)
    (enrichFails : Nat → Bool) (st0 : VideoStore) (k rem : Nat)
    (hnd : (ms.map (videoKey siteId)).Nodup)
    (hfresh : ∀ m ∈ ms, videoKey siteId m ∉ st0.recs)
    (hne : ms ≠ [])
    (hkfail : ∀ i < k, enrichFails i = true)
    (hkok : enrichFails k = false)
    (hk : k ≤ rem) :
    retryStateExec (downloadStateAttempt siteId ms enrichFails) rem 0
        ⟨st0, []⟩ =
      (⟨⟨st0.recs ++ ms.map (videoKey siteId)⟩, ms.map (videoKey siteId)⟩,
        .ok ()) ∧
    (ms.map (videoKey siteId)).Nodup := by
  refine ⟨?_, hnd⟩
  have hfreshEq := getOrCreateVideos_all_fresh siteId ⟨st0, []⟩ ms hnd hfresh
  have hsnd := getOrCreateVideos_snd siteId ⟨st0, []⟩ ms
  have hEmpty : (ms.map (videoKey siteId)).isEmpty = false := by
    cases ms with
    | nil => exact absurd rfl hne
    | cons m ms' => rfl
  have hpres1 : ∀ m ∈ ms, videoKey siteId m ∈
      (⟨⟨st0.recs ++ ms.map (videoKey siteId)⟩,
        ms.map (videoKey siteId)⟩ : MixinState).store.recs := by
    intro m hm
    exact List.mem_append_right _ (List.mem_map_of_mem _ hm)
  have hatt0 : downloadStateAttempt siteId ms enrichFails 0 ⟨st0, []⟩ =
      (⟨⟨st0.recs ++ ms.map (videoKey siteId)⟩, ms.map (videoKey siteId)⟩,
        if enrichFails 0 then .error .enrichFailed else .ok ()) := by
    unfold downloadStateAttempt
    rw [hfreshEq, hsnd, hEmpty]
    split <;> simp
  cases k with
  | zero =>
    have h0 : enrichFails 0 = false := hkok
    cases rem with
    | zero =>
      rw [retryStateExec, hatt0, h0]
      rfl
    | succ r =>
      rw [retryStateExec, hatt0, h0]
      rfl
  | succ k' =>
    have h0 : enrichFails 0 = true := hkfail 0 (by omega)
    obtain ⟨r, rfl⟩ : ∃ r, rem = r + 1 := by
      cases rem with
      | zero => omega
      | succ r => exact ⟨r, rfl⟩
    rw [retryStateExec, hatt0, h0]
    exact retryStateExec_stable siteId ms enrichFails hne (k' + 1) hkok r 1
      _ hpres1 (fun j hj1 hj2 => hkfail j hj2) (by omega) (by omega)

/-- Witness for C10: one item, first attempt's enrichment fails, second
attempt succeeds; the item is notified exactly once. -/
theorem c10_accumulator_across_retries_witness :
    ((fun i : Nat => i == 0) 0 = true) ∧
    retryStateExec
        (downloadStateAttempt 0 [⟨"A", "/a", "t", 5⟩] (fun i => i == 0))
        19 0 ⟨⟨[]⟩, []⟩ =
      (⟨⟨[videoKey 0 ⟨"A", "/a", "t", 5⟩]⟩, [videoKey 0 ⟨"A", "/a", "t", 5⟩]⟩,
        .ok ()) :=
  ⟨rfl,
    (c10_accumulator_across_retries 0 [⟨"A", "/a", "t", 5⟩] (fun i => i == 0)
      ⟨[]⟩ 1 19 (by decide) (by decide) (by decide) (by decide) rfl
      (by decide)).1⟩

end Crawler
